import Mathlib

/-!
# Verification of the dioxus-redux subscription/cache engine

Shallow embedding of `src/lib.rs` of `dioxus-community/dioxus-redux`.

The engine keeps a registry (`Subscriptions = HashMap<TypeId, ValueEntry>`)
mapping a selector identity (the `TypeId` of the slicer closure `F`) to a
cache entry `ValueEntry { scopes, value, compare }`.  The memoized value
lives in a shared cell `Rc<RefCell<Box<dyn Any>>>`; we model such shared
cells by addresses into an explicit heap `Nat → V`, so that aliasing
(several `Rc` clones of one cell) and in-place updates are observable.

Modelling choices (all traceable to the source):
* `ScopeId` and `TypeId` become `Nat`.
* The dynamic value type `dyn Any` becomes a parameter `V` together with a
  runtime-type function `tagOf : V → Nat`; a slicer with identity `fid`
  is `sel fid : S → V`, and `retTag fid` is the `TypeId` of its return
  type `T` (in Rust the closure type `F` determines `T`, which is the
  hypothesis `∀ fid s, tagOf (sel fid s) = retTag fid`).
* `HashMap` becomes an association list with unique keys; `HashSet<ScopeId>`
  becomes a duplicate-free `List Nat`.
* The `async_channel` is a FIFO queue plus a closed flag; `try_send(..)`
  returns `Except`, and the `.unwrap()` in `ReduxDispatcher::dispatch` is
  modelled by `Except.toOption`, `none` standing for a panic.
* The comparator closure built in `use_slice` captures the store and the
  slicer `slicer = sel fid` at entry creation; an entry records that
  captured identity in `selFid`.
-/

namespace DioxusRedux

/-- A cache entry: `ValueEntry { scopes, value, compare }` from the source.
`scopes` is the subscriber set (`Rc<RefCell<HashSet<ScopeId>>>`),
`valueAddr` is the address of the shared value cell
(`Rc<RefCell<Box<dyn Any>>>`), and `selFid` records which slicer the
`compare` closure captured when the entry was created in `use_slice`. -/
structure EntryM where
  scopes : List Nat
  valueAddr : Nat
  selFid : Nat
deriving DecidableEq, Repr

/-- The whole store: the user state (`store: Rc<RefCell<S>>`), the heap of
shared value cells with its allocation counter, and the subscription map
(`Subscriptions = Rc<RefCell<HashMap<TypeId, ValueEntry>>>`). -/
structure StoreSt (S V : Type) where
  store : S
  heap : Nat → V
  hp : Nat
  subs : List (Nat × EntryM)

/-- First-match lookup in the subscription map (`HashMap::get`). -/
def lookupA : List (Nat × EntryM) → Nat → Option EntryM
  | [], _ => none
  | (k, e) :: rest, fid => if k = fid then some e else lookupA rest fid

/-- Replace the entry stored under a key (`HashMap::entry(..).and_modify`). -/
def setA : List (Nat × EntryM) → Nat → EntryM → List (Nat × EntryM)
  | [], _, _ => []
  | (k, x) :: rest, fid, e =>
      if k = fid then (k, e) :: rest else (k, x) :: setA rest fid e

/-- Remove the entry stored under a key (`HashMap::remove`). -/
def eraseA : List (Nat × EntryM) → Nat → List (Nat × EntryM)
  | [], _ => []
  | (k, x) :: rest, fid =>
      if k = fid then rest else (k, x) :: eraseA rest fid

/-- `HashSet::insert` on the subscriber set. -/
def insertScope (s : Nat) (l : List Nat) : List Nat :=
  if s ∈ l then l else l ++ [s]

/-- `HashSet::remove` on the subscriber set. -/
def removeScope (s : Nat) (l : List Nat) : List Nat :=
  l.filter (fun x => x ≠ s)

/-- Write one heap cell in place (`*cached.borrow_mut() = Box::new(current)`). -/
def updateH {V : Type} (heap : Nat → V) (a : Nat) (v : V) : Nat → V :=
  fun x => if x = a then v else heap x

section Engine

variable {S V : Type} [DecidableEq V]

/-- One comparator run from the sweep in `ReduxStore::handle`, i.e. the
closure built in `use_slice`: recompute `current = slicer(store)` against
the post-event state, compare with the cached value, replace the cached
value in place when it differs, and report the subscriber set to mark
dirty when it changed (empty when `is_equal`). -/
def sweepOne (sel : Nat → S → V) (store : S) (heap : Nat → V) (e : EntryM) :
    (Nat → V) × List Nat :=
  if heap e.valueAddr = sel e.selFid store then (heap, [])
  else (updateH heap e.valueAddr (sel e.selFid store), e.scopes)

/-- The dirty-check sweep over all live entries
(`for (_function, value_entry) in self.subscriptions.borrow().iter()`),
returning the final heap and the concatenated list of scope ids passed to
`schedule_update_any`. -/
def sweep (sel : Nat → S → V) (store : S) (heap : Nat → V) :
    List (Nat × EntryM) → (Nat → V) × List Nat
  | [] => (heap, [])
  | (_, e) :: rest =>
      let r1 := sweepOne sel store heap e
      let r2 := sweep sel store r1.1 rest
      (r2.1, r1.2 ++ r2.2)

/-- `ReduxStore::handle`: apply the event to the user state via the
user-supplied transition `step` (`Store::handle`), then run the sweep.
Returns the new store state and the list of scope ids marked dirty. -/
def handleM (step : S → E → S) (sel : Nat → S → V) (m : StoreSt S V)
    (ev : E) : StoreSt S V × List Nat :=
  let store' := step m.store ev
  let r := sweep sel store' m.heap m.subs
  ({ m with store := store', heap := r.1 }, r.2)

/-- `ReduxStore::subscribe`: `entry(function_id).and_modify(insert scope)
.or_insert_with(new entry)`.  The third component records whether the
`or_insert_with` branch ran, i.e. whether the `FnOnce` compute function
(`gen_value_getter`) and the comparator factory were invoked.  The second
component is the `ValueEntry` clone put into the returned `Subscription`. -/
def subscribeM (sel : Nat → S → V) (m : StoreSt S V) (scopeId fid : Nat) :
    StoreSt S V × EntryM × Bool :=
  match lookupA m.subs fid with
  | some e =>
      let e' : EntryM := { e with scopes := insertScope scopeId e.scopes }
      ({ m with subs := setA m.subs fid e' }, e', false)
  | none =>
      let v := sel fid m.store
      let e : EntryM := { scopes := [scopeId], valueAddr := m.hp, selFid := fid }
      ({ m with heap := updateH m.heap m.hp v, hp := m.hp + 1,
                subs := m.subs ++ [(fid, e)] }, e, true)

/-- `Subscription::drop`: remove this scope from the entry's subscriber
set; if that empties the set, evict the entry from the map; if the map has
no entry for this identity, do nothing. -/
def dropSubM (m : StoreSt S V) (scopeId fid : Nat) : StoreSt S V :=
  match lookupA m.subs fid with
  | some e =>
      let scopes' := removeScope scopeId e.scopes
      if scopes'.isEmpty then { m with subs := eraseA m.subs fid }
      else { m with subs := setA m.subs fid { e with scopes := scopes' } }
  | none => m

/-- `ReduxSlice::read`: clone the `Rc` of the entry's value cell — the
returned reader is the cell's address, not a copy of the value. -/
def readM (e : EntryM) : Nat := e.valueAddr

/-- Dereference a reader: look the shared cell up in the current heap. -/
def derefM (m : StoreSt S V) (addr : Nat) : V := m.heap addr

/-- The source's `downcast` helper: a raw pointer reinterpretation that
performs no runtime type inspection at all — it is total and cannot fail. -/
def downcastM (v : V) : V := v

/-- A hypothetical checking read (`downcast_ref::<T>` style): succeeds only
when the value's runtime type matches the expected one.  The source never
performs such a check in `ReduxSlice::read`; we use this definition to show
the check could never fail anyway. -/
def downcastChecked (tagOf : V → Nat) (expected : Nat) (v : V) : Option V :=
  if tagOf v = expected then some v else none

/-- Keys of the subscription map. -/
def keysOf (subs : List (Nat × EntryM)) : List Nat := subs.map Prod.fst

/-- Value-cell addresses of the subscription map's entries. -/
def addrsOf (subs : List (Nat × EntryM)) : List Nat :=
  subs.map (fun p => p.2.valueAddr)

/-- Structural invariant of a reachable store: every entry's cell was
allocated (address below the allocation counter), distinct entries own
distinct cells, every entry's comparator captured the slicer it is keyed
under, and the map's keys are unique. -/
def Inv (m : StoreSt S V) : Prop :=
  (∀ p ∈ m.subs, p.2.valueAddr < m.hp) ∧
  (addrsOf m.subs).Nodup ∧
  (∀ p ∈ m.subs, p.2.selFid = p.1) ∧
  (keysOf m.subs).Nodup

/-- Type-correctness of the erased storage: each live entry's cell holds a
value of the return type of the selector the entry is keyed under. -/
def TypedInv (tagOf : V → Nat) (retTag : Nat → Nat) (m : StoreSt S V) : Prop :=
  ∀ p ∈ m.subs, tagOf (m.heap p.2.valueAddr) = retTag p.1

end Engine

/-! ## The event channel (`async_channel`) and the dispatcher -/

/-- The error of `try_send` on a closed unbounded channel. -/
inductive ChanError where
  | channelClosed
deriving DecidableEq, Repr

/-- An unbounded mpsc channel: FIFO queue plus a closed flag (the flag is
set once the receiving side — the consumer loop — is gone). -/
structure ChannelSt (E : Type) where
  closed : Bool
  queue : List E

/-- `Sender::try_send` on an unbounded channel: enqueue at the back, or
report `ChannelClosed` when the receiver is gone; never blocks. -/
def trySendM {E : Type} (ch : ChannelSt E) (e : E) :
    Except ChanError (ChannelSt E) :=
  if ch.closed then Except.error ChanError.channelClosed
  else Except.ok { ch with queue := ch.queue ++ [e] }

/-- `ReduxDispatcher::dispatch`: `self.event_dispatcher.try_send(event)
.unwrap()`.  The `.unwrap()` turns the `ChannelClosed` error into a panic;
`none` models that unhandled fault. -/
def dispatchM {E : Type} (ch : ChannelSt E) (e : E) : Option (ChannelSt E) :=
  (trySendM ch e).toOption

/-- Dispatch a whole list of events in program order from one producer. -/
def sendAll {E : Type} : ChannelSt E → List E → Option (ChannelSt E)
  | ch, [] => some ch
  | ch, e :: rest =>
      match dispatchM ch e with
      | some ch' => sendAll ch' rest
      | none => none

/-- The consumer loop from `use_init_store`:
`while let Ok(event) = event_rx.recv().await { store.handle(event) }` —
dequeue in FIFO order, apply one event at a time, stop when the channel is
exhausted.  Along with the final state it returns the trace of events in
the order they were applied. -/
def runConsumer {S E : Type} (step : S → E → S) : S → List E → S × List E
  | s, [] => (s, [])
  | s, e :: rest =>
      let r := runConsumer step (step s e) rest
      (r.1, e :: r.2)

/-! ## Context lookup hooks -/

/-- `use_slice`: `cx.consume_context::<ReduxStore<S>>().unwrap()` followed
by `store.subscribe(..)`.  A missing ancestor context makes the `unwrap()`
panic: `none` models that abort; there is no recoverable error variant in
the return type. -/
def useSliceM {S V : Type} [DecidableEq V] (sel : Nat → S → V)
    (ctx : Option (StoreSt S V)) (scopeId fid : Nat) :
    Option (StoreSt S V × EntryM) :=
  match ctx with
  | none => none
  | some m =>
      let r := subscribeM sel m scopeId fid
      some (r.1, r.2.1)

/-- `use_dispatcher`: `cx.consume_context::<ReduxStore<S>>().unwrap()` and
hand out the store's sender.  `none` models the panic on a missing
context. -/
def useDispatcherM {E : Type} (ctx : Option (ChannelSt E)) :
    Option (ChannelSt E) :=
  match ctx with
  | none => none
  | some ch => some ch

/-! ## A concrete instantiation

The scenario of the spec's §8: a counter state, slicer `0` a constant
projection (its output never changes) and slicer `1` the identity
projection, one scope (`5`) subscribed under both identities. -/

/-- The user transition function: add the event to the counter. -/
def exStep : Nat → Nat → Nat := fun s e => s + e

/-- The selector table: slicer `0` is constant, slicer `1` reads the
counter. -/
def exSel : Nat → Nat → Nat := fun fid s => if fid = 0 then 0 else s

/-- Runtime type of the (homogeneous) example values. -/
def exTag : Nat → Nat := fun _ => 0

/-- Return type of each example slicer. -/
def exRetTag : Nat → Nat := fun _ => 0

/-- Entry for slicer `0`, subscribed by scope `5`, cell `0`. -/
def exEntry0 : EntryM := { scopes := [5], valueAddr := 0, selFid := 0 }

/-- Entry for slicer `1`, subscribed by scope `5`, cell `1`. -/
def exEntry1 : EntryM := { scopes := [5], valueAddr := 1, selFid := 1 }

/-- The example store at counter `0`, both cells holding the current
projections. -/
def exM : StoreSt Nat Nat :=
  { store := 0, heap := fun _ => 0, hp := 2,
    subs := [(0, exEntry0), (1, exEntry1)] }

/-! ## Lemmas about the subscription map -/

@[simp] theorem addrsOf_nil : addrsOf [] = [] := rfl

@[simp] theorem addrsOf_cons (p : Nat × EntryM) (l : List (Nat × EntryM)) :
    addrsOf (p :: l) = p.2.valueAddr :: addrsOf l := rfl

@[simp] theorem keysOf_nil : keysOf [] = [] := rfl

@[simp] theorem keysOf_cons (p : Nat × EntryM) (l : List (Nat × EntryM)) :
    keysOf (p :: l) = p.1 :: keysOf l := rfl

theorem mem_of_lookupA {l : List (Nat × EntryM)} {fid : Nat} {e : EntryM}
    (h : lookupA l fid = some e) : (fid, e) ∈ l := by
  induction l with
  | nil => simp [lookupA] at h
  | cons hd tl ih =>
      obtain ⟨k, y⟩ := hd
      by_cases hk : k = fid
      · subst hk
        simp [lookupA] at h
        subst h
        exact List.mem_cons_self _ _
      · simp [lookupA, hk] at h
        exact List.mem_cons_of_mem _ (ih h)

theorem mem_keysOf_of_lookupA {l : List (Nat × EntryM)} {fid : Nat}
    {e : EntryM} (h : lookupA l fid = some e) : fid ∈ keysOf l := by
  have := mem_of_lookupA h
  exact List.mem_map_of_mem Prod.fst this

theorem lookupA_eq_none_of_not_mem {l : List (Nat × EntryM)} {fid : Nat}
    (h : fid ∉ keysOf l) : lookupA l fid = none := by
  induction l with
  | nil => rfl
  | cons hd tl ih =>
      obtain ⟨k, y⟩ := hd
      simp only [keysOf_cons, List.mem_cons] at h
      push_neg at h
      simp [lookupA, Ne.symm h.1]
      exact ih h.2

theorem lookupA_setA {l : List (Nat × EntryM)} {fid : Nat} {x : EntryM}
    (e : EntryM) (h : lookupA l fid = some x) :
    lookupA (setA l fid e) fid = some e := by
  induction l with
  | nil => simp [lookupA] at h
  | cons hd tl ih =>
      obtain ⟨k, y⟩ := hd
      by_cases hk : k = fid
      · subst hk
        simp [setA, lookupA]
      · simp only [lookupA, if_neg hk] at h
        simp [setA, lookupA, hk]
        exact ih h

theorem keysOf_setA (l : List (Nat × EntryM)) (fid : Nat) (e : EntryM) :
    keysOf (setA l fid e) = keysOf l := by
  induction l with
  | nil => rfl
  | cons hd tl ih =>
      obtain ⟨k, y⟩ := hd
      by_cases hk : k = fid
      · subst hk
        simp [setA]
      · simp [setA, hk, ih]

theorem mem_setA {l : List (Nat × EntryM)} {fid : Nat} {e : EntryM}
    {p : Nat × EntryM} (h : p ∈ setA l fid e) : p ∈ l ∨ p = (fid, e) := by
  induction l with
  | nil => simp [setA] at h
  | cons hd tl ih =>
      obtain ⟨k, y⟩ := hd
      by_cases hk : k = fid
      · subst hk
        have hset : setA ((k, y) :: tl) k e = (k, e) :: tl := by
          simp [setA]
        rw [hset] at h
        rcases List.mem_cons.mp h with h1 | h1
        · exact Or.inr h1
        · exact Or.inl (List.mem_cons_of_mem _ h1)
      · have hset : setA ((k, y) :: tl) fid e = (k, y) :: setA tl fid e := by
          simp [setA, hk]
        rw [hset] at h
        rcases List.mem_cons.mp h with h1 | h1
        · exact Or.inl (by rw [h1]; exact List.mem_cons_self _ _)
        · rcases ih h1 with h2 | h2
          · exact Or.inl (List.mem_cons_of_mem _ h2)
          · exact Or.inr h2

theorem lookupA_eraseA {l : List (Nat × EntryM)} {fid : Nat}
    (hk : (keysOf l).Nodup) : lookupA (eraseA l fid) fid = none := by
  induction l with
  | nil => rfl
  | cons hd tl ih =>
      obtain ⟨k, y⟩ := hd
      simp only [keysOf_cons, List.nodup_cons] at hk
      by_cases h : k = fid
      · subst h
        simpa [eraseA] using lookupA_eq_none_of_not_mem hk.1
      · simp [eraseA, lookupA, h]
        exact ih hk.2

/-! ## Lemmas about the dirty-check sweep -/

theorem sweepOne_apply {S V : Type} [DecidableEq V] (sel : Nat → S → V)
    (st : S) (heap : Nat → V) (e : EntryM) :
    (sweepOne sel st heap e).1 e.valueAddr = sel e.selFid st := by
  unfold sweepOne
  split
  · assumption
  · simp [updateH]

theorem sweepOne_other {S V : Type} [DecidableEq V] (sel : Nat → S → V)
    (st : S) (heap : Nat → V) (e : EntryM) (a : Nat)
    (hne : a ≠ e.valueAddr) : (sweepOne sel st heap e).1 a = heap a := by
  unfold sweepOne
  split
  · rfl
  · simp [updateH, hne]

theorem sweep_not_mem {S V : Type} [DecidableEq V] (sel : Nat → S → V)
    (st : S) (heap : Nat → V) (l : List (Nat × EntryM)) (a : Nat)
    (ha : a ∉ addrsOf l) : (sweep sel st heap l).1 a = heap a := by
  induction l generalizing heap with
  | nil => rfl
  | cons hd tl ih =>
      obtain ⟨k, e⟩ := hd
      simp only [addrsOf_cons, List.mem_cons] at ha
      push_neg at ha
      simp only [sweep]
      rw [ih _ ha.2]
      exact sweepOne_other sel st heap e a ha.1

theorem sweep_fresh {S V : Type} [DecidableEq V] (sel : Nat → S → V)
    (st : S) (heap : Nat → V) (l : List (Nat × EntryM))
    (hnd : (addrsOf l).Nodup) (p : Nat × EntryM) (hmem : p ∈ l) :
    (sweep sel st heap l).1 p.2.valueAddr = sel p.2.selFid st := by
  induction l generalizing heap with
  | nil => cases hmem
  | cons hd tl ih =>
      obtain ⟨k, e⟩ := hd
      simp only [addrsOf_cons, List.nodup_cons] at hnd
      rcases List.mem_cons.mp hmem with h | h
      · subst h
        simp only [sweep]
        rw [sweep_not_mem _ _ _ _ _ hnd.1]
        exact sweepOne_apply sel st heap e
      · simp only [sweep]
        exact ih _ hnd.2 h

theorem sweep_dirty_sound {S V : Type} [DecidableEq V] (sel : Nat → S → V)
    (st : S) (heap : Nat → V) (l : List (Nat × EntryM))
    (hnd : (addrsOf l).Nodup) (sc : Nat)
    (hsc : sc ∈ (sweep sel st heap l).2) :
    ∃ p ∈ l, sc ∈ p.2.scopes ∧ heap p.2.valueAddr ≠ sel p.2.selFid st := by
  induction l generalizing heap with
  | nil => simp [sweep] at hsc
  | cons hd tl ih =>
      obtain ⟨k, e⟩ := hd
      simp only [addrsOf_cons, List.nodup_cons] at hnd
      simp only [sweep, List.mem_append] at hsc
      rcases hsc with h1 | h2
      · refine ⟨(k, e), List.mem_cons_self _ _, ?_⟩
        by_cases heq : heap e.valueAddr = sel e.selFid st
        · exfalso
          simp [sweepOne, heq] at h1
        · refine ⟨?_, heq⟩
          simpa [sweepOne, heq] using h1
      · obtain ⟨p, hp, hscp, hneq⟩ := ih _ hnd.2 h2
        refine ⟨p, List.mem_cons_of_mem _ hp, hscp, ?_⟩
        have hpa : p.2.valueAddr ≠ e.valueAddr := by
          intro hcontr
          exact hnd.1 (hcontr ▸ List.mem_map_of_mem (fun q => q.2.valueAddr) hp)
        rwa [sweepOne_other sel st heap e _ hpa] at hneq

/-! ## Lemmas about the channel and consumer loop -/

theorem sendAll_open {E : Type} (q : List E) (evs : List E) :
    sendAll ⟨false, q⟩ evs = some ⟨false, q ++ evs⟩ := by
  induction evs generalizing q with
  | nil => simp [sendAll]
  | cons e rest ih =>
      simp [sendAll, dispatchM, trySendM, Except.toOption, ih]

theorem runConsumer_trace {S E : Type} (step : S → E → S) (s : S)
    (q : List E) : (runConsumer step s q).2 = q := by
  induction q generalizing s with
  | nil => rfl
  | cons e rest ih => simp [runConsumer, ih]

theorem runConsumer_state {S E : Type} (step : S → E → S) (s : S)
    (q : List E) : (runConsumer step s q).1 = q.foldl step s := by
  induction q generalizing s with
  | nil => rfl
  | cons e rest ih => simp [runConsumer, ih]

/-! ## The claims -/

/-- C1 (Freshness): after `handle(event)` returns, the subscription map
and every entry are untouched, the state is the post-event state, and
every live entry's memoized value equals its selector applied to the
post-event state — the sweep's comparator replaces the cached value in
place whenever the recomputed projection differs, so no entry is stale
beyond the latest processed event.  The hypothesis is the structural
invariant that distinct entries own distinct value cells. -/
theorem C1_freshness {S E V : Type} [DecidableEq V] (step : S → E → S)
    (sel : Nat → S → V) (m : StoreSt S V) (ev : E)
    (hnd : (addrsOf m.subs).Nodup) :
    (handleM step sel m ev).1.subs = m.subs ∧
    (handleM step sel m ev).1.store = step m.store ev ∧
    ∀ p ∈ m.subs,
      (handleM step sel m ev).1.heap p.2.valueAddr
        = sel p.2.selFid (step m.store ev) := by
  refine ⟨rfl, rfl, fun p hp => ?_⟩
  exact sweep_fresh sel (step m.store ev) m.heap m.subs hnd p hp

/-- Witness for C1: in the concrete two-entry store, after applying event
`1` the cell of the identity slicer's entry holds the new projection. -/
theorem C1_freshness_witness :
    (handleM exStep exSel exM 1).1.heap exEntry1.valueAddr
      = exSel exEntry1.selFid (exStep exM.store 1) :=
  (C1_freshness exStep exSel exM 1 (by decide)).2.2 (1, exEntry1) (by decide)

/-- Counterexample to C2 as stated: scope `5` subscribes under both the
constant slicer `0` (whose entry's comparator reports "unchanged" for
event `1`) and slicer `1` (whose entry changes); the sweep nevertheless
passes `5` — a member of the unchanged entry's subscriber set — to the
mark-dirty callback. -/
theorem C2_isolation_counterexample :
    (0, exEntry0) ∈ exM.subs ∧
    5 ∈ exEntry0.scopes ∧
    exM.heap exEntry0.valueAddr = exSel exEntry0.selFid (exStep exM.store 1) ∧
    5 ∈ (handleM exStep exSel exM 1).2 := by decide

/-- C2 (amended): mark-dirty is invoked only for subscribers of entries
whose comparator reported a change; hence a subscriber registered only
under entries whose comparator reported the projection unchanged is never
passed to the mark-dirty callback during that sweep. -/
theorem C2_isolation_amended {S E V : Type} [DecidableEq V]
    (step : S → E → S) (sel : Nat → S → V) (m : StoreSt S V) (ev : E)
    (hnd : (addrsOf m.subs).Nodup) (sc : Nat) :
    (sc ∈ (handleM step sel m ev).2 →
      ∃ p ∈ m.subs, sc ∈ p.2.scopes ∧
        m.heap p.2.valueAddr ≠ sel p.2.selFid (step m.store ev)) ∧
    ((∀ p ∈ m.subs, sc ∈ p.2.scopes →
        m.heap p.2.valueAddr = sel p.2.selFid (step m.store ev)) →
      sc ∉ (handleM step sel m ev).2) := by
  constructor
  · intro hsc
    exact sweep_dirty_sound sel (step m.store ev) m.heap m.subs hnd sc hsc
  · intro hall hsc
    obtain ⟨p, hp, hscp, hneq⟩ :=
      sweep_dirty_sound sel (step m.store ev) m.heap m.subs hnd sc hsc
    exact hneq (hall p hp hscp)

/-- Witness for the amended C2: scope `7` is subscribed under no entry at
all, so it is vacuously registered only under unchanged entries and is
not marked dirty. -/
theorem C2_isolation_amended_witness :
    7 ∉ (handleM exStep exSel exM 1).2 :=
  (C2_isolation_amended exStep exSel exM 1 (by decide) 7).2 (by decide)

/-- C3 (Dedup without recomputation): when an entry for the selector
identity exists, `subscribe` does not run the `or_insert_with` branch
(so neither the compute function nor the comparator factory is invoked,
and the user state, the heap and the allocation counter are untouched),
it only adds the subscriber to the entry's set, returns a handle to the
existing cell, and the map keeps exactly one entry under that identity. -/
theorem C3_dedup {S V : Type} [DecidableEq V] (sel : Nat → S → V)
    (m : StoreSt S V) (scopeId fid : Nat) (e : EntryM)
    (h : lookupA m.subs fid = some e) :
    (subscribeM sel m scopeId fid).2.2 = false ∧
    (subscribeM sel m scopeId fid).1.store = m.store ∧
    (subscribeM sel m scopeId fid).1.heap = m.heap ∧
    (subscribeM sel m scopeId fid).1.hp = m.hp ∧
    (subscribeM sel m scopeId fid).2.1
      = { e with scopes := insertScope scopeId e.scopes } ∧
    (subscribeM sel m scopeId fid).2.1.valueAddr = e.valueAddr ∧
    lookupA (subscribeM sel m scopeId fid).1.subs fid
      = some ((subscribeM sel m scopeId fid).2.1) ∧
    keysOf (subscribeM sel m scopeId fid).1.subs = keysOf m.subs ∧
    ((keysOf m.subs).Nodup →
      (keysOf (subscribeM sel m scopeId fid).1.subs).count fid = 1) := by
  have hs : subscribeM sel m scopeId fid
      = ({ m with
            subs := setA m.subs fid
              { e with scopes := insertScope scopeId e.scopes } },
         { e with scopes := insertScope scopeId e.scopes }, false) := by
    simp only [subscribeM, h]
  rw [hs]
  refine ⟨rfl, rfl, rfl, rfl, rfl, rfl, ?_, ?_, ?_⟩
  · exact lookupA_setA _ h
  · exact keysOf_setA _ _ _
  · intro hnd
    rw [keysOf_setA]
    exact List.count_eq_one_of_mem hnd (mem_keysOf_of_lookupA h)

/-- Witness for C3: a second subscriber (scope `9`) under identity `0`
does not run the factories and leaves the key set unchanged. -/
theorem C3_dedup_witness :
    (subscribeM exSel exM 9 0).2.2 = false ∧
    keysOf (subscribeM exSel exM 9 0).1.subs = keysOf exM.subs := by
  have h := C3_dedup exSel exM 9 0 exEntry0 (by decide)
  exact ⟨h.1, h.2.2.2.2.2.2.2.1⟩

/-- C4 (Ref-counted cleanup): releasing a `Subscription` removes its
scope from the entry's subscriber set; the entry is evicted exactly when
that set becomes empty and is kept (with the smaller set) while
subscribers remain; a later `subscribe` under the same identity then runs
the `or_insert_with` branch and recomputes the value from scratch into a
fresh cell. -/
theorem C4_refcount_cleanup {S V : Type} [DecidableEq V] (sel : Nat → S → V)
    (m : StoreSt S V) (scopeId fid : Nat) (e : EntryM)
    (h : lookupA m.subs fid = some e) (hk : (keysOf m.subs).Nodup) :
    (removeScope scopeId e.scopes = [] →
      lookupA (dropSubM m scopeId fid).subs fid = none) ∧
    (removeScope scopeId e.scopes ≠ [] →
      lookupA (dropSubM m scopeId fid).subs fid
        = some { e with scopes := removeScope scopeId e.scopes }) ∧
    (∀ (m2 : StoreSt S V) (scope2 : Nat), lookupA m2.subs fid = none →
      (subscribeM sel m2 scope2 fid).2.2 = true ∧
      (subscribeM sel m2 scope2 fid).1.heap
          ((subscribeM sel m2 scope2 fid).2.1.valueAddr)
        = sel fid m2.store) := by
  refine ⟨?_, ?_, ?_⟩
  · intro hempty
    have hd : dropSubM m scopeId fid = { m with subs := eraseA m.subs fid } := by
      simp only [dropSubM, h, hempty, List.isEmpty_nil, if_pos]
    rw [hd]
    exact lookupA_eraseA hk
  · intro hne
    have hni : (removeScope scopeId e.scopes).isEmpty = false := by
      cases hrem : removeScope scopeId e.scopes with
      | nil => exact absurd hrem hne
      | cons a l => rfl
    have hd : dropSubM m scopeId fid
        = { m with
              subs := setA m.subs fid
                { e with scopes := removeScope scopeId e.scopes } } := by
      simp only [dropSubM, h, hni, Bool.false_eq_true, if_false]
    rw [hd]
    exact lookupA_setA _ h
  · intro m2 scope2 h2
    constructor
    · simp only [subscribeM, h2]
    · simp only [subscribeM, h2, updateH]
      simp

/-- Witness for C4: dropping the only subscriber (scope `5`) of identity
`0` evicts the entry, and a subsequent subscribe recomputes. -/
theorem C4_refcount_cleanup_witness :
    lookupA (dropSubM exM 5 0).subs 0 = none ∧
    (subscribeM exSel (dropSubM exM 5 0) 9 0).2.2 = true := by
  have h := C4_refcount_cleanup exSel exM 5 0 exEntry0 (by decide) (by decide)
  have hev : lookupA (dropSubM exM 5 0).subs 0 = none := h.1 (by decide)
  exact ⟨hev, (h.2.2 (dropSubM exM 5 0) 9 hev).1⟩

/-- C5 (Ordering): dispatching the global interleaving of producer events
enqueues them FIFO; the single consumer loop applies the queue strictly
in global enqueue order, one event at a time (the final state is the left
fold of the transition function); and each producer's own events are
applied as a subsequence in that producer's dispatch order. -/
theorem C5_ordering {S E : Type} (step : S → E → S) (s : S)
    (hist : List (Nat × E)) (p : Nat) (q : List E) :
    sendAll ⟨false, []⟩ (hist.map Prod.snd)
      = some ⟨false, hist.map Prod.snd⟩ ∧
    (runConsumer step s (hist.map Prod.snd)).2 = hist.map Prod.snd ∧
    List.Sublist ((hist.filter (fun pe => pe.1 == p)).map Prod.snd)
      ((runConsumer step s (hist.map Prod.snd)).2) ∧
    (runConsumer step s q).1 = q.foldl step s := by
  refine ⟨by simpa using sendAll_open [] (hist.map Prod.snd),
          runConsumer_trace step s _, ?_, runConsumer_state step s q⟩
  rw [runConsumer_trace]
  exact List.Sublist.map Prod.snd (List.filter_sublist hist)

/-- C6 (Dispatch after close), the code at the failing input: `try_send`
on the closed channel does produce the recoverable `ChannelClosed` error,
but `ReduxDispatcher::dispatch` immediately `.unwrap()`s it, so the call
ends in an unhandled panic (`none`) instead of reporting the error to the
caller — the `TODO: Handle errors` path of the source. -/
theorem C6_dispatch_after_close {E : Type} (q : List E) (e : E) :
    trySendM ⟨true, q⟩ e = Except.error ChanError.channelClosed ∧
    dispatchM ⟨true, q⟩ e = none :=
  ⟨rfl, rfl⟩

/-- C7 (Downcast-mismatch rejection): the cache entry is keyed by the
slicer's `TypeId`, which in Rust determines the projection's return type
(`hsel`), so type-correct storage (`TypedInv`) is preserved both when a
subscribe reuses an entry and across every sweep; consequently a checking
read could never fail — and the source's read performs no runtime type
check at all. -/
theorem C7_downcast_rejection {S E V : Type} [DecidableEq V]
    (step : S → E → S) (sel : Nat → S → V) (tagOf : V → Nat)
    (retTag : Nat → Nat) (hsel : ∀ fid s, tagOf (sel fid s) = retTag fid)
    (m : StoreSt S V) :
    (∀ scopeId fid, TypedInv tagOf retTag m →
      (∀ p ∈ m.subs, p.2.valueAddr < m.hp) →
      TypedInv tagOf retTag (subscribeM sel m scopeId fid).1) ∧
    (∀ ev : E, TypedInv tagOf retTag m → Inv m →
      TypedInv tagOf retTag (handleM step sel m ev).1) ∧
    (TypedInv tagOf retTag m →
      ∀ p ∈ m.subs,
        downcastChecked tagOf (retTag p.1) (derefM m (readM p.2))
          = some (derefM m (readM p.2))) := by
  refine ⟨?_, ?_, ?_⟩
  · intro scopeId fid hT hA
    cases hl : lookupA m.subs fid with
    | some e =>
        intro p hp
        simp only [subscribeM, hl] at hp ⊢
        rcases mem_setA hp with hpm | hpe
        · exact hT p hpm
        · subst hpe
          simpa using hT (fid, e) (mem_of_lookupA hl)
    | none =>
        intro p hp
        simp only [subscribeM, hl] at hp ⊢
        rcases List.mem_append.mp hp with hpm | hpe
        · have hne : p.2.valueAddr ≠ m.hp := Nat.ne_of_lt (hA p hpm)
          simp only [updateH, if_neg hne]
          exact hT p hpm
        · simp only [List.mem_singleton] at hpe
          subst hpe
          simp only [updateH, if_pos rfl]
          exact hsel fid m.store
  · intro ev hT hInv p hp
    have hsub : (handleM step sel m ev).1.subs = m.subs := rfl
    rw [hsub] at hp
    have hheap : (handleM step sel m ev).1.heap p.2.valueAddr
        = sel p.2.selFid (step m.store ev) :=
      sweep_fresh sel (step m.store ev) m.heap m.subs hInv.2.1 p hp
    rw [hheap, hsel, hInv.2.2.1 p hp]
  · intro hT p hp
    have htag := hT p hp
    simp [downcastChecked, derefM, readM, htag]

/-- Witness for C7: in the concrete store the checking read of entry `0`
succeeds (and the source's unchecked read returns the very same value). -/
theorem C7_downcast_rejection_witness :
    downcastChecked exTag (exRetTag 0) (derefM exM (readM exEntry0))
      = some (derefM exM (readM exEntry0)) :=
  (C7_downcast_rejection exStep exSel exTag exRetTag (fun _ _ => rfl)
      exM).2.2 (by unfold TypedInv; decide) (0, exEntry0) (by decide)

/-- C8 (Shared-storage reads): `read()` returns the entry's single cell
itself (its address — no copy on read); the sweep leaves the map and the
cell identity untouched and replaces the value in that same cell, so the
update is immediately visible through a reader obtained before the
sweep. -/
theorem C8_shared_storage {S E V : Type} [DecidableEq V] (step : S → E → S)
    (sel : Nat → S → V) (m : StoreSt S V) (ev : E)
    (hnd : (addrsOf m.subs).Nodup) (p : Nat × EntryM) (hp : p ∈ m.subs) :
    readM p.2 = p.2.valueAddr ∧
    (handleM step sel m ev).1.subs = m.subs ∧
    derefM (handleM step sel m ev).1 (readM p.2)
      = sel p.2.selFid (step m.store ev) := by
  refine ⟨rfl, rfl, ?_⟩
  exact sweep_fresh sel (step m.store ev) m.heap m.subs hnd p hp

/-- Witness for C8: a reader for entry `1` obtained before the sweep sees
the freshly recomputed projection after event `1`. -/
theorem C8_shared_storage_witness :
    derefM (handleM exStep exSel exM 1).1 (readM exEntry1)
      = exSel exEntry1.selFid (exStep exM.store 1) :=
  (C8_shared_storage exStep exSel exM 1 (by decide) (1, exEntry1)
    (by decide)).2.2

/-- C9 (ContextMissing is fatal): with no ancestor `use_init_store`
context, both `use_slice` and `use_dispatcher` hit the `.unwrap()` of
`consume_context` and abort (`none` — the model of a panic); their return
types carry no recoverable error variant, and with a context present both
succeed. -/
theorem C9_context_missing {S E V : Type} [DecidableEq V]
    (sel : Nat → S → V) (scopeId fid : Nat) :
    useSliceM sel (none : Option (StoreSt S V)) scopeId fid = none ∧
    useDispatcherM (none : Option (ChannelSt E)) = none ∧
    (∀ m : StoreSt S V, (useSliceM sel (some m) scopeId fid).isSome = true) ∧
    (∀ ch : ChannelSt E, (useDispatcherM (some ch)).isSome = true) :=
  ⟨rfl, rfl, fun _ => rfl, fun _ => rfl⟩

/-- C10 (stale release is a no-op): dropping a `Subscription` whose
identity is no longer in the map — e.g. the second drop of a cloned
`Subscription` after the entry was evicted — leaves the whole store,
subscriptions map included, completely unchanged. -/
theorem C10_stale_drop_noop {S V : Type} (m : StoreSt S V)
    (scopeId fid : Nat) (h : lookupA m.subs fid = none) :
    dropSubM m scopeId fid = m := by
  unfold dropSubM
  rw [h]

/-- Witness for C10: the second drop of scope `5`'s subscription under
identity `0`, after the first drop already evicted the entry, changes
nothing. -/
theorem C10_stale_drop_noop_witness :
    dropSubM (dropSubM exM 5 0) 5 0 = dropSubM exM 5 0 :=
  C10_stale_drop_noop (dropSubM exM 5 0) 5 0 (by decide)

end DioxusRedux
